import Mathlib

/-!
Verification of `src/streamlit-simulation.py`, an interactive Monte Carlo
simulator that builds an empirical null distribution for a two-group
proportion-difference statistic and estimates a two-sided p-value.

The Python source is shallowly embedded below:
* randomness (`np.random.choice`) is modelled by an explicit stream
  `rand : ℕ → Bool × Bool` of binary choices, one pair per trial;
* Python floats are modelled by `ℚ` (all quantities in the core are
  ratios of small integers);
* the unguarded Python divisions in `generate_sample`, which raise
  `ZeroDivisionError` when a group is empty, are modelled by returning
  `Option ℚ`, with `none` on the error path.
-/

/-- Attribute 1 of a trial: `np.random.choice(['M', 'F'])`. -/
inductive Sex : Type
  | M : Sex
  | F : Sex
deriving DecidableEq, Repr

/-- Attribute 2 of a trial: `np.random.choice(['Sx', 'Dx'])`. -/
inductive Arm : Type
  | Sx : Arm
  | Dx : Arm
deriving DecidableEq, Repr

/-- One simulated unit: the pair `[sex, arm]` appended to `samples`. -/
structure Trial : Type where
  sex : Sex
  arm : Arm
deriving DecidableEq, Repr

/-- `np.random.choice(['M', 'F'])`: a single binary random choice. -/
def chooseSex (b : Bool) : Sex := if b then Sex.F else Sex.M

/-- `np.random.choice(['Sx', 'Dx'])`: a single binary random choice. -/
def chooseArm (b : Bool) : Arm := if b then Arm.Dx else Arm.Sx

/-- One loop iteration of `generate_sample`: draws `sex` and `arm` from two
separate random choices (the pair `b` of independent random bits). -/
def mkTrial (b : Bool × Bool) : Trial :=
  { sex := chooseSex b.1, arm := chooseArm b.2 }

/-- The `for _ in range(54)` loop: builds the list `samples` of 54 trials,
trial `i` consuming the `i`-th pair of random bits. -/
def generateBatch (rand : ℕ → Bool × Bool) : List Trial :=
  (List.range 54).map (fun i => mkTrial (rand i))

/-- The `counts` dictionary with keys `M_Sx`, `M_Dx`, `F_Sx`, `F_Dx`. -/
structure Counts : Type where
  mSx : ℕ
  mDx : ℕ
  fSx : ℕ
  fDx : ℕ
deriving DecidableEq, Repr

/-- The `for sex, arm in samples` loop: increments the matching counter
for each trial, starting from the all-zero dictionary. -/
def tally (samples : List Trial) : Counts :=
  samples.foldl
    (fun c t =>
      match t.sex, t.arm with
      | Sex.M, Arm.Sx => { c with mSx := c.mSx + 1 }
      | Sex.M, Arm.Dx => { c with mDx := c.mDx + 1 }
      | Sex.F, Arm.Sx => { c with fSx := c.fSx + 1 }
      | Sex.F, Arm.Dx => { c with fDx := c.fDx + 1 })
    { mSx := 0, mDx := 0, fSx := 0, fDx := 0 }

/-- `generate_sample` (lines 8–29): draws 54 trials, tallies the four
(sex, arm) counts, computes `male_dx` and `female_dx` as conditional
proportions and returns `female_dx - male_dx`.  The two Python divisions
are unguarded and raise `ZeroDivisionError` when a group count is zero;
this error path is modelled by `none`. -/
def generate_sample (rand : ℕ → Bool × Bool) : Option ℚ :=
  let counts := tally (generateBatch rand)
  if counts.mDx + counts.mSx = 0 then none
  else if counts.fDx + counts.fSx = 0 then none
  else
    let male_dx : ℚ := (counts.mDx : ℚ) / ((counts.mDx : ℚ) + (counts.mSx : ℚ))
    let female_dx : ℚ := (counts.fDx : ℚ) / ((counts.fDx : ℚ) + (counts.fSx : ℚ))
    some (female_dx - male_dx)

/-- Specification-side count of trials with a given (sex, arm) pair,
used to relate `tally` to the claims' `count(group, value)` language. -/
def countSA (samples : List Trial) (s : Sex) (a : Arm) : ℕ :=
  (samples.filter (fun t => t.sex = s ∧ t.arm = a)).length

/-- Line 140: `sum(abs(d) >= abs(observed_diff) for d in differences) /
current_samples` — the two-sided p-value estimator. -/
def p_value (differences : List ℚ) (observed : ℚ) : ℚ :=
  ((differences.countP (fun d => |observed| ≤ |d|)) : ℚ) / (differences.length : ℚ)

/-- The fixed observed statistic, `observed_diff = 0.06` (line 139). -/
def observed_diff : ℚ := 6 / 100

/-- Line 132: `st.progress(min(1.0, current_samples / target_samples))` —
the displayed progress fraction. -/
def progress (current_samples target_samples : ℕ) : ℚ :=
  min 1 ((current_samples : ℚ) / (target_samples : ℚ))

/-- Rounding a rational to 4 decimal places.  Modelled from the spec:
the display format string `f"{p_value:.4f}"` (line 141) rounds the
p-value to 4 decimal places; the exact tie-breaking of CPython's float
formatting is outside the rational model. -/
def format4 (q : ℚ) : ℚ := (round (q * 10000) : ℚ) / 10000

/-- Lines 138–141: the P-value metric is produced only under the guard
`current_samples > 0`; when produced, it is the estimator's result at
`observed_diff`, rounded to 4 decimal places for display. -/
def p_value_metric (differences : List ℚ) : Option ℚ :=
  if 0 < differences.length then
    some (format4 (p_value differences observed_diff))
  else none

/-- The per-session state: `st.session_state.differences` (the empirical
distribution) and `st.session_state.running` (the run flag). -/
structure SimState : Type where
  differences : List ℚ
  running : Bool
deriving DecidableEq, Repr

/-- Lines 100–103: both keys start absent and are initialised to the
empty list and `False`. -/
def initState : SimState := { differences := [], running := false }

/-- The user/scheduler events that mutate session state in one script run. -/
inductive Event : Type
  | toggle : Event
  | reset : Event
  | tick : ℚ → Event
deriving DecidableEq, Repr

/-- One script run's effect on the session state, given the selected
`target_samples`:
* line 113 (Start/Stop button): `running = not running`;
* lines 117–118 (Reset button): `differences = []` and `running = False`
  in the same script run;
* lines 152–154 (auto-update): if `running and current_samples <
  target_samples`, append one freshly drawn statistic and rerun. -/
def applyEvent (target_samples : ℕ) (s : SimState) : Event → SimState
  | Event.toggle => { s with running := !s.running }
  | Event.reset => { differences := [], running := false }
  | Event.tick sample =>
      if s.running = true ∧ s.differences.length < target_samples then
        { s with differences := s.differences ++ [sample] }
      else s

/-- Iterating script runs from a starting state. -/
def runEvents (target_samples : ℕ) (acts : List Event) (s : SimState) :
    SimState :=
  acts.foldl (applyEvent target_samples) s

/-- A concrete deterministic random stream used to evaluate the embedded
sampler on a fully explicit batch: trial `i` draws `F`/`Dx` when `i` is
even and `M`/`Sx` when `i` is odd. -/
def randAlt (i : ℕ) : Bool × Bool := (decide (i % 2 = 0), decide (i % 2 = 0))

/-- `tally` agrees with the four filter counts. -/
theorem tally_eq_countSA (samples : List Trial) :
    tally samples =
      { mSx := countSA samples Sex.M Arm.Sx
        mDx := countSA samples Sex.M Arm.Dx
        fSx := countSA samples Sex.F Arm.Sx
        fDx := countSA samples Sex.F Arm.Dx } := by
  suffices h : ∀ (l : List Trial) (c : Counts),
      l.foldl
        (fun c t =>
          match t.sex, t.arm with
          | Sex.M, Arm.Sx => { c with mSx := c.mSx + 1 }
          | Sex.M, Arm.Dx => { c with mDx := c.mDx + 1 }
          | Sex.F, Arm.Sx => { c with fSx := c.fSx + 1 }
          | Sex.F, Arm.Dx => { c with fDx := c.fDx + 1 }) c =
      { mSx := c.mSx + countSA l Sex.M Arm.Sx
        mDx := c.mDx + countSA l Sex.M Arm.Dx
        fSx := c.fSx + countSA l Sex.F Arm.Sx
        fDx := c.fDx + countSA l Sex.F Arm.Dx } by
    have := h samples { mSx := 0, mDx := 0, fSx := 0, fDx := 0 }
    simpa [tally] using this
  intro l
  induction l with
  | nil => intro c; simp [countSA]
  | cons t l ih =>
    intro c
    rcases t with ⟨s, a⟩
    cases s <;> cases a <;>
      simp [countSA, List.filter_cons, ih] <;> omega

/-- A per-group conditional proportion `a / (a + b)` of natural counts lies
in the unit interval whenever the group is non-empty. -/
theorem prop_mem_unit (a b : ℕ) (h : a + b ≠ 0) :
    0 ≤ (a : ℚ) / ((a : ℚ) + (b : ℚ)) ∧ (a : ℚ) / ((a : ℚ) + (b : ℚ)) ≤ 1 := by
  have hpos : (0 : ℚ) < (a : ℚ) + (b : ℚ) := by
    have h0 : 0 < a + b := Nat.pos_of_ne_zero h
    exact_mod_cast h0
  refine ⟨div_nonneg (by positivity) hpos.le, ?_⟩
  rw [div_le_one hpos]
  have hb : (0 : ℚ) ≤ (b : ℚ) := by positivity
  linarith

/-- C2: on a non-empty accumulated sequence, the p-value estimator returns
the count of values `v` with `|v| ≥ |observed|` divided by the total number
of values, and the result lies in [0, 1]. -/
theorem pvalue_is_tail_fraction_in_unit_interval
    (differences : List ℚ) (observed : ℚ) (h : differences ≠ []) :
    p_value differences observed =
      (((differences.filter (fun d => |observed| ≤ |d|)).length : ℚ) /
        (differences.length : ℚ)) ∧
    0 ≤ p_value differences observed ∧ p_value differences observed ≤ 1 := by
  have hlen : 0 < differences.length := List.length_pos.mpr h
  have hlenQ : (0 : ℚ) < (differences.length : ℚ) := by exact_mod_cast hlen
  refine ⟨by rw [p_value, List.countP_eq_length_filter], ?_, ?_⟩
  · exact div_nonneg (by positivity) hlenQ.le
  · rw [p_value, div_le_one hlenQ]
    exact_mod_cast List.countP_le_length _

/-- Witness for C2 at the concrete sequence `[1/2]` and observed `6/100`. -/
theorem pvalue_is_tail_fraction_in_unit_interval_witness :
    p_value [(1 : ℚ)/2] (6/100) =
      ((([(1 : ℚ)/2].filter (fun d => |(6 : ℚ)/100| ≤ |d|)).length : ℚ) /
        (([(1 : ℚ)/2] : List ℚ).length : ℚ)) ∧
    0 ≤ p_value [(1 : ℚ)/2] (6/100) ∧ p_value [(1 : ℚ)/2] (6/100) ≤ 1 :=
  pvalue_is_tail_fraction_in_unit_interval [(1 : ℚ)/2] (6/100) (by decide)

/-- C5: on a fixed non-empty accumulated sequence, the reported p-value is
monotonically non-increasing in the absolute value of the observed
statistic. -/
theorem pvalue_antitone_in_abs_observed
    (differences : List ℚ) (o1 o2 : ℚ) (hne : differences ≠ [])
    (h : |o1| ≤ |o2|) :
    p_value differences o2 ≤ p_value differences o1 := by
  have hlenQ : (0 : ℚ) < (differences.length : ℚ) := by
    exact_mod_cast List.length_pos.mpr hne
  have hc : differences.countP (fun d => |o2| ≤ |d|) ≤
      differences.countP (fun d => |o1| ≤ |d|) := by
    refine List.countP_mono_left ?_
    intro d _ hd
    simp only [decide_eq_true_eq] at hd ⊢
    exact le_trans h hd
  rw [p_value, p_value, div_le_div_iff_of_pos_right hlenQ]
  exact_mod_cast hc

/-- Witness for C5 at the sequence `[1/2]`, `o1 = 0`, `o2 = 1`. -/
theorem pvalue_antitone_in_abs_observed_witness :
    p_value [(1 : ℚ)/2] 1 ≤ p_value [(1 : ℚ)/2] 0 :=
  pvalue_antitone_in_abs_observed [(1 : ℚ)/2] 0 1 (by decide) (by norm_num)

/-- C6: on every non-empty accumulated sequence, the estimator applied to
observed = 0 returns exactly 1, since every value `v` satisfies
`|v| ≥ 0`. -/
theorem pvalue_at_zero_eq_one (differences : List ℚ) (h : differences ≠ []) :
    p_value differences 0 = 1 := by
  have hlenQ : (0 : ℚ) < (differences.length : ℚ) := by
    exact_mod_cast List.length_pos.mpr h
  have hall : ∀ d ∈ differences, (fun d => decide (|(0 : ℚ)| ≤ |d|)) d = true := by
    intro d _
    simp [abs_nonneg]
  rw [p_value, List.countP_eq_length.mpr hall]
  exact div_self hlenQ.ne'

/-- Witness for C6 at the concrete sequence `[1/2]`. -/
theorem pvalue_at_zero_eq_one_witness : p_value [(1 : ℚ)/2] 0 = 1 :=
  pvalue_at_zero_eq_one [(1 : ℚ)/2] (by decide)

/-- C7: the p-value metric is produced only under the `current_samples > 0`
guard — the estimator's division is never invoked on an empty sequence —
and when produced it is the estimator's value at `observed_diff` rounded to
4 decimal places (an integer multiple of 1/10000). -/
theorem pvalue_metric_guarded_and_4dp (differences : List ℚ)
    (h : differences ≠ []) :
    p_value_metric [] = none ∧
    p_value_metric differences =
      some (format4 (p_value differences observed_diff)) ∧
    (∃ n : ℤ, format4 (p_value differences observed_diff) = (n : ℚ) / 10000) := by
  have hlen : 0 < differences.length := List.length_pos.mpr h
  refine ⟨rfl, by rw [p_value_metric, if_pos hlen], ?_⟩
  exact ⟨round (p_value differences observed_diff * 10000), rfl⟩

/-- Witness for C7 at the concrete sequence `[1/2]`. -/
theorem pvalue_metric_guarded_and_4dp_witness :
    p_value_metric [] = none ∧
    p_value_metric [(1 : ℚ)/2] =
      some (format4 (p_value [(1 : ℚ)/2] observed_diff)) ∧
    (∃ n : ℤ, format4 (p_value [(1 : ℚ)/2] observed_diff) = (n : ℚ) / 10000) :=
  pvalue_metric_guarded_and_4dp [(1 : ℚ)/2] (by decide)

/-- C8: Reset is one atomic transition that simultaneously clears the
empirical distribution and the running flag: the state immediately after
the Reset event is exactly the initial state (`differences = []` and
`running = false`), from every prior state and after every prior event
history, with no intermediate state in between. -/
theorem reset_clears_both_atomically (target_samples : ℕ) (s : SimState)
    (acts : List Event) :
    applyEvent target_samples s Event.reset = initState ∧
    (applyEvent target_samples s Event.reset).differences = [] ∧
    (applyEvent target_samples s Event.reset).running = false ∧
    runEvents target_samples (acts ++ [Event.reset]) s = initState := by
  refine ⟨rfl, rfl, rfl, ?_⟩
  rw [runEvents, List.foldl_append]
  rfl

/-- C9: one tick appends exactly one statistic value, and only when the
running flag is set and the count is strictly below the target; otherwise
the state is unchanged.  Consequently, for a fixed target, the accumulated
count never exceeds the target in any state reachable from the initial
state. -/
theorem tick_appends_one_and_count_bounded (target_samples : ℕ)
    (s : SimState) (sample : ℚ) (acts : List Event) :
    (s.running = true ∧ s.differences.length < target_samples →
      (applyEvent target_samples s (Event.tick sample)).differences =
        s.differences ++ [sample]) ∧
    (¬(s.running = true ∧ s.differences.length < target_samples) →
      applyEvent target_samples s (Event.tick sample) = s) ∧
    (runEvents target_samples acts initState).differences.length ≤
      target_samples := by
  have step : ∀ (st : SimState) (a : Event),
      st.differences.length ≤ target_samples →
      (applyEvent target_samples st a).differences.length ≤ target_samples := by
    intro st a hle
    cases a with
    | toggle => simpa [applyEvent] using hle
    | reset => simp [applyEvent, initState]
    | tick q =>
      by_cases hc : st.running = true ∧ st.differences.length < target_samples
      · have h2 := hc.2
        simp only [applyEvent, if_pos hc, List.length_append, List.length_cons,
          List.length_nil]
        omega
      · simpa [applyEvent, if_neg hc] using hle
  have key : ∀ (l : List Event) (st : SimState),
      st.differences.length ≤ target_samples →
      (runEvents target_samples l st).differences.length ≤ target_samples := by
    intro l
    induction l with
    | nil => intro st hle; simpa [runEvents] using hle
    | cons a l ih =>
      intro st hle
      rw [runEvents, List.foldl_cons]
      exact ih (applyEvent target_samples st a) (step st a hle)
  refine ⟨?_, ?_, key acts initState (by simp [initState])⟩
  · intro hc
    simp [applyEvent, if_pos hc]
  · intro hc
    simp [applyEvent, if_neg hc]

/-- Witness for C9: a tick in a running below-target state appends one
value; a tick in a stopped state changes nothing; a concrete event history
respects the target bound. -/
theorem tick_appends_one_and_count_bounded_witness :
    (applyEvent 3 { differences := [], running := true }
        (Event.tick 1)).differences = ([] : List ℚ) ++ [1] ∧
    applyEvent 3 { differences := [], running := false } (Event.tick 1) =
      { differences := [], running := false } ∧
    (runEvents 3 [Event.toggle, Event.tick 1, Event.tick 2]
        initState).differences.length ≤ 3 :=
  ⟨(tick_appends_one_and_count_bounded 3
      { differences := [], running := true } 1 []).1 ⟨rfl, by decide⟩,
   (tick_appends_one_and_count_bounded 3
      { differences := [], running := false } 1 []).2.1
      (by simp),
   (tick_appends_one_and_count_bounded 3
      { differences := [], running := false } 1
      [Event.toggle, Event.tick 1, Event.tick 2]).2.2⟩

/-- C10: with a positive target, the displayed progress fraction
`min(1.0, current_samples / target_samples)` always lies in [0, 1], and it
equals exactly 1 whenever the current count reaches or exceeds the target
(e.g. after the target is lowered mid-run). -/
theorem progress_clamped_unit_interval (current_samples target_samples : ℕ)
    (h : 0 < target_samples) :
    0 ≤ progress current_samples target_samples ∧
    progress current_samples target_samples ≤ 1 ∧
    (target_samples ≤ current_samples →
      progress current_samples target_samples = 1) := by
  have hT : (0 : ℚ) < (target_samples : ℚ) := by exact_mod_cast h
  refine ⟨le_min (by norm_num) (div_nonneg (by positivity) hT.le),
    min_le_left _ _, ?_⟩
  intro hle
  have h1 : (1 : ℚ) ≤ (current_samples : ℚ) / (target_samples : ℚ) := by
    rw [le_div_iff₀ hT, one_mul]
    exact_mod_cast hle
  exact min_eq_left h1

/-- Witness for C10 at `current_samples = 5`, `target_samples = 3`. -/
theorem progress_clamped_unit_interval_witness :
    0 ≤ progress 5 3 ∧ progress 5 3 ≤ 1 ∧
    (3 ≤ 5 → progress 5 3 = 1) :=
  progress_clamped_unit_interval 5 3 (by decide)

/-- C1: the sampler builds exactly 54 trials; trial `i` is determined by
the `i`-th pair of independent random bits, with each (sex, arm) outcome
hit by exactly one of the four equally likely bit pairs (uniform and
uncorrelated attributes); and, when both groups are non-empty, the
returned statistic is the conditional proportion of `Dx` among `F` minus
the conditional proportion of `Dx` among `M`. -/
theorem sampler_54_uniform_trials_prop_diff (rand : ℕ → Bool × Bool)
    (i : ℕ) (hi : i < 54) (s : Sex) (a : Arm)
    (hm : countSA (generateBatch rand) Sex.M Arm.Dx +
        countSA (generateBatch rand) Sex.M Arm.Sx ≠ 0)
    (hf : countSA (generateBatch rand) Sex.F Arm.Dx +
        countSA (generateBatch rand) Sex.F Arm.Sx ≠ 0) :
    (generateBatch rand).length = 54 ∧
    (generateBatch rand)[i]? = some (mkTrial (rand i)) ∧
    ((Finset.univ : Finset (Bool × Bool)).filter
        (fun b => mkTrial b = { sex := s, arm := a })).card = 1 ∧
    generate_sample rand =
      some (((countSA (generateBatch rand) Sex.F Arm.Dx : ℚ) /
          ((countSA (generateBatch rand) Sex.F Arm.Dx : ℚ) +
            (countSA (generateBatch rand) Sex.F Arm.Sx : ℚ))) -
        ((countSA (generateBatch rand) Sex.M Arm.Dx : ℚ) /
          ((countSA (generateBatch rand) Sex.M Arm.Dx : ℚ) +
            (countSA (generateBatch rand) Sex.M Arm.Sx : ℚ)))) := by
  refine ⟨by simp [generateBatch], ?_, ?_, ?_⟩
  · simp [generateBatch, List.getElem?_map, List.getElem?_range, hi]
  · cases s <;> cases a <;> decide
  · rw [generate_sample, tally_eq_countSA]
    rw [if_neg hm, if_neg hf]

/-- Witness for C1 at the concrete stream `randAlt`, index 0 and the
(M, Sx) outcome. -/
theorem sampler_54_uniform_trials_prop_diff_witness :
    (generateBatch randAlt).length = 54 ∧
    (generateBatch randAlt)[0]? = some (mkTrial (randAlt 0)) ∧
    ((Finset.univ : Finset (Bool × Bool)).filter
        (fun b => mkTrial b = { sex := Sex.M, arm := Arm.Sx })).card = 1 ∧
    generate_sample randAlt =
      some (((countSA (generateBatch randAlt) Sex.F Arm.Dx : ℚ) /
          ((countSA (generateBatch randAlt) Sex.F Arm.Dx : ℚ) +
            (countSA (generateBatch randAlt) Sex.F Arm.Sx : ℚ))) -
        ((countSA (generateBatch randAlt) Sex.M Arm.Dx : ℚ) /
          ((countSA (generateBatch randAlt) Sex.M Arm.Dx : ℚ) +
            (countSA (generateBatch randAlt) Sex.M Arm.Sx : ℚ)))) :=
  sampler_54_uniform_trials_prop_diff randAlt 0 (by decide) Sex.M Arm.Sx
    (by decide) (by decide)

/-- C3: every statistic the sampler actually returns (i.e. whenever both
groups are non-empty, so the division succeeds) lies in [-1, 1]. -/
theorem statistic_in_unit_ball (rand : ℕ → Bool × Bool) (q : ℚ)
    (h : generate_sample rand = some q) : -1 ≤ q ∧ q ≤ 1 := by
  simp only [generate_sample] at h
  split_ifs at h with h1 h2
  obtain rfl : q = _ := (Option.some.inj h).symm
  obtain ⟨hf0, hf1⟩ := prop_mem_unit (tally (generateBatch rand)).fDx
    (tally (generateBatch rand)).fSx h2
  obtain ⟨hm0, hm1⟩ := prop_mem_unit (tally (generateBatch rand)).mDx
    (tally (generateBatch rand)).mSx h1
  constructor <;> linarith

/-- Witness for C3: on the concrete stream `randAlt` the sampler returns
exactly 1, which lies in [-1, 1]. -/
theorem statistic_in_unit_ball_witness :
    generate_sample randAlt = some 1 ∧ (-1 ≤ (1 : ℚ) ∧ (1 : ℚ) ≤ 1) := by
  have he : generate_sample randAlt = some 1 := by
    have ht : tally (generateBatch randAlt) =
        { mSx := 27, mDx := 0, fSx := 0, fDx := 27 } := by decide
    simp only [generate_sample, ht]
    norm_num
  exact ⟨he, statistic_in_unit_ball randAlt 1 he⟩

/-- C4: the sampler hits the unguarded division-by-zero error path exactly
when one of the two groups has total count zero in the drawn batch; the
all-female stream shows the crash is reachable, and no numeric value (no
NaN or infinity stand-in) is produced in that case. -/
theorem generate_sample_none_iff_empty_group (rand : ℕ → Bool × Bool) :
    (generate_sample rand = none ↔
      (tally (generateBatch rand)).mDx + (tally (generateBatch rand)).mSx = 0 ∨
      (tally (generateBatch rand)).fDx + (tally (generateBatch rand)).fSx = 0) ∧
    generate_sample (fun _ => (true, true)) = none := by
  constructor
  · simp only [generate_sample]
    split_ifs with h1 h2
    · simp [h1]
    · simp [h1, h2]
    · simp [h1, h2]
  · decide
